import Mathlib

/-!
Verification of the conversation-history core of the line-bot-chouseiman
repository (src/main.py), shallowly embedded in Lean 4.

The embedding mirrors the Python source:
* a message record is the dict appended at lines 132-138 of main.py,
  holding a `timestamp` (possibly absent), a `user` and a `message` field;
* the store (`conversation_history`) is a JSON-style object, modelled as an
  insertion-ordered association list from conversation id to message log
  (Python dicts preserve insertion order, and assignment to an existing key
  keeps its position);
* `clean_old_history` (main.py lines 64-86) is the eviction routine;
* the windowing expression `history.get(group_id, [])[-MAX_PROMPT_MESSAGES:]`
  (line 150) is modelled with exact Python slice semantics;
* `load_history` / `save_history` (lines 41-61) are modelled over an abstract
  file state together with a small JSON value type;
* the prompt-text loop (lines 158-178) is modelled by `buildLines`.

Library behaviour that the Python code delegates to the standard library
(`datetime.fromisoformat`, `strftime`) is treated as a parameter: timestamps
parse to an abstract `DateTime` carrying a local calendar date and a
time-of-day, ordered lexicographically exactly as naive `datetime` values
compare, and `timedelta(days = d)` subtraction shifts the date component.
-/

/-- Abstract naive datetime: a local calendar date (as an integer day index)
and a time of day.  Python naive datetimes compare lexicographically by
(date, time-of-day). -/
structure DateTime where
  date : Int
  tod : Nat
deriving DecidableEq, Repr

/-- Comparison `a <= b` on naive datetimes (lexicographic). -/
def DateTime.le (a b : DateTime) : Bool :=
  decide (a.date < b.date ∨ (a.date = b.date ∧ a.tod ≤ b.tod))

/-- `now - timedelta(days = d)`: shifts the calendar date, keeps time of day. -/
def subDays (now : DateTime) (d : Int) : DateTime :=
  ⟨now.date - d, now.tod⟩

/-- One history record, as built at main.py lines 132-138: keys
`timestamp`, `user`, `message`.  The timestamp field is `Option` because
`msg.get("timestamp")` may yield `None` for records of foreign origin. -/
structure Msg where
  timestamp : Option String
  user : String
  message : String
deriving DecidableEq, Repr

/-- The store state: a Python dict from conversation id (group / room / user
id) to message log, as an insertion-ordered association list. -/
abbrev History := List (String × List Msg)

/-- `history.get(k, [])`. -/
def hGet (h : History) (k : String) : List Msg :=
  match h with
  | [] => []
  | (k', v) :: t => if k' = k then v else hGet t k

/-- `history[k] = v` on a Python dict: overwrite in place when the key is
present, otherwise insert at the end. -/
def hSet (h : History) (k : String) (v : List Msg) : History :=
  match h with
  | [] => [(k, v)]
  | (k', v') :: t => if k' = k then (k, v) :: t else (k', v') :: hSet t k v

/-- `datetime.fromisoformat(ts) if ts else None`, guarded by the
`try/except` of main.py lines 74-77: a missing or empty timestamp, or a
parse failure, yields no datetime.  The parser itself
(`datetime.fromisoformat`) is the abstract parameter `parse`. -/
def parseField (parse : String → Option DateTime) (ts : Option String) :
    Option DateTime :=
  match ts with
  | none => none
  | some s => if s = "" then none else parse s

/-- The per-record keep condition of the age pass, main.py line 79:
`dt is None or dt >= cutoff`. -/
def keepMsg (parse : String → Option DateTime) (cutoff : DateTime)
    (m : Msg) : Bool :=
  match parseField parse m.timestamp with
  | none => true
  | some dt => DateTime.le cutoff dt

/-- Python slice `l[s:]` for an integer start `s`: a negative start counts
from the end (clamped at 0), a non-negative start counts from the front
(clamped at the length). -/
def pySliceFrom (s : Int) (l : List Msg) : List Msg :=
  if s < 0 then l.drop (l.length - (-s).toNat) else l.drop s.toNat

/-- The size pass, main.py lines 83-84: if the list exceeds `maxRecords`,
it is replaced by `filtered[-maxRecords:]`, with exact Python slice
semantics: for a positive cap this keeps the last `maxRecords` entries, but
at a cap of zero `-0` is `0` and the slice keeps the whole list. -/
def truncateLast (maxRecords : Nat) (l : List Msg) : List Msg :=
  if maxRecords < l.length then pySliceFrom (-(maxRecords : Int)) l else l

/-- `clean_old_history` (main.py lines 64-86), with the clock reading `now`,
the retention window in days and the record cap as explicit parameters (the
source reads `datetime.now()` and the module constants `MAX_HISTORY_DAYS`,
`MAX_HISTORY_PER_GROUP`). -/
def clean_old_history (parse : String → Option DateTime) (now : DateTime)
    (retentionDays : Int) (maxRecords : Nat) (history : History)
    (group_id : String) : History :=
  if (hGet history group_id).isEmpty then history
  else
    hSet history group_id
      (truncateLast maxRecords
        ((hGet history group_id).filter
          (keepMsg parse (subDays now retentionDays))))

/-- `MAX_HISTORY_DAYS` (main.py line 35). -/
def MAX_HISTORY_DAYS : Int := 180

/-- `MAX_HISTORY_PER_GROUP` (main.py line 36). -/
def MAX_HISTORY_PER_GROUP : Nat := 5000

/-- `MAX_PROMPT_MESSAGES` (main.py line 37). -/
def MAX_PROMPT_MESSAGES : Int := 600

/-- The windowing expression of main.py line 150,
`conversation_history.get(group_id, [])[-MAX_PROMPT_MESSAGES:]`, with the
record limit as a parameter: `Window(id, limit) = log[-limit:]`. -/
def window (history : History) (group_id : String) (limit : Int) :
    List Msg :=
  pySliceFrom (-limit) (hGet history group_id)

/-- `Append` (main.py lines 131-138): `setdefault` plus list append; the
stored timestamp is `now.isoformat()`, rendered by the abstract `isofmt`. -/
def append_message (isofmt : DateTime → String) (history : History)
    (group_id user text : String) (now : DateTime) : History :=
  hSet history group_id
    (hGet history group_id ++ [⟨some (isofmt now), user, text⟩])



/-! ## Persistence (main.py lines 34, 41-61)

`load_history` reads `conversation_history.json` and returns its decoded
content when it is a JSON object, and the empty dict otherwise;
`save_history` serialises the store to a temporary file and atomically
replaces the canonical path with `os.replace`. -/

/-- JSON values, the image of `json.load` / the domain of `json.dump`. -/
inductive Json where
  | null
  | bool (b : Bool)
  | num (n : Int)
  | str (s : String)
  | arr (elems : List Json)
  | obj (fields : List (String × Json))

/-- The observable state of the canonical history file: absent
(`os.path.exists` is false), present but unreadable (`open`/read raises),
readable but not valid JSON (`json.load` raises), or valid JSON content. -/
inductive FileState where
  | absent
  | unreadable
  | corrupt
  | content (j : Json)

/-- `load_history` (main.py lines 41-53): any failure, and any decoded value
that is not a dict, falls back to the empty dict; otherwise the entries of
the decoded object are returned as the store. -/
def load_history (fs : FileState) : List (String × Json) :=
  match fs with
  | FileState.absent => []
  | FileState.unreadable => []
  | FileState.corrupt => []
  | FileState.content j =>
      match j with
      | Json.obj fields => fields
      | _ => []

/-- Serialisation of one record, in the key order of main.py lines 132-138
(`json.dump` preserves dict insertion order). -/
def encodeMsg (m : Msg) : Json :=
  Json.obj
    [("timestamp", match m.timestamp with
        | none => Json.null
        | some s => Json.str s),
     ("user", Json.str m.user),
     ("message", Json.str m.message)]

/-- Serialisation of the store as the field list of the history JSON object. -/
def encodeEntries (h : History) : List (String × Json) :=
  h.map (fun kv => (kv.1, Json.arr (kv.2.map encodeMsg)))

/-- The whole history file content written by `save_history`. -/
def encodeHistory (h : History) : Json :=
  Json.obj (encodeEntries h)

/-- Structural inverse of `encodeMsg`, used to state that the persisted
encoding determines the store state exactly. -/
def decodeMsg (j : Json) : Option Msg :=
  match j with
  | Json.obj [("timestamp", tj), ("user", Json.str u), ("message", Json.str t)] =>
      match tj with
      | Json.null => some ⟨none, u, t⟩
      | Json.str s => some ⟨some s, u, t⟩
      | _ => none
  | _ => none

/-- Decode a list of serialised records. -/
def decodeMsgs (js : List Json) : Option (List Msg) :=
  match js with
  | [] => some []
  | j :: rest =>
      match decodeMsg j, decodeMsgs rest with
      | some m, some ms => some (m :: ms)
      | _, _ => none

/-- Decode one conversation log. -/
def decodeLog (j : Json) : Option (List Msg) :=
  match j with
  | Json.arr js => decodeMsgs js
  | _ => none

/-- Structural inverse of `encodeEntries`. -/
def decodeEntries (kvs : List (String × Json)) : Option History :=
  match kvs with
  | [] => some []
  | (k, j) :: rest =>
      match decodeLog j, decodeEntries rest with
      | some ms, some h => some ((k, ms) :: h)
      | _, _ => none

/-- The two files `save_history` touches: the canonical history file and the
temporary file `conversation_history.json.tmp`. -/
structure DiskState where
  canonical : FileState
  tmp : Option Json

/-- First step of `save_history` (main.py lines 59-60): write the JSON dump
of the store to the temporary path. -/
def write_tmp (d : DiskState) (j : Json) : DiskState :=
  ⟨d.canonical, some j⟩

/-- Second step of `save_history` (main.py line 61): `os.replace(tmp, file)`
atomically makes the temporary content the canonical content. -/
def replace_tmp (d : DiskState) : DiskState :=
  match d.tmp with
  | some j => ⟨FileState.content j, none⟩
  | none => d

/-- `save_history` (main.py lines 56-61): write the temporary file, then
atomically replace the canonical file. -/
def save_history (d : DiskState) (h : History) : DiskState :=
  replace_tmp (write_tmp d (encodeHistory h))

/-- `save_history` interrupted by a crash after the temporary file is fully
written but before the `os.replace` step. -/
def save_crash_after_tmp (d : DiskState) (h : History) : DiskState :=
  write_tmp d (encodeHistory h)

/-! ## Prompt context texts (main.py lines 150-178) -/

/-- One rendered line, `f"[{ts_str}] {user}: {message}"`
(main.py lines 171 and 175). -/
def renderLine (tsStr user message : String) : String :=
  "[" ++ tsStr ++ "] " ++ user ++ ": " ++ message

/-- The sentinel used when no message of the window falls on the current
calendar date (main.py line 178). -/
def TODAY_SENTINEL : String := "（今日はまだ会話が少ない、もしくは保存されていません）"

/-- The loop of main.py lines 161-175, producing `history_lines` and
`today_lines`.  `fmt` abstracts `strftime("%Y年%m月%d日 %H:%M")`; `today` is
`now.date()`. -/
def buildLines (parse : String → Option DateTime) (fmt : DateTime → String)
    (today : Int) (msgs : List Msg) : List String × List String :=
  match msgs with
  | [] => ([], [])
  | m :: rest =>
      let rendered :=
        match parseField parse m.timestamp with
        | some dt =>
            (renderLine (fmt dt) m.user m.message,
             if dt.date = today
               then [renderLine (fmt dt) m.user m.message] else [])
        | none =>
            (renderLine (m.timestamp.getD "") m.user m.message, [])
      let tail := buildLines parse fmt today rest
      (rendered.1 :: tail.1, rendered.2 ++ tail.2)

/-- Declarative description of `today_lines`, written from the spec: the
subset of the selected records whose parsable timestamp falls on the local
calendar date `today`, rendered in order. -/
def todaySubset (parse : String → Option DateTime) (fmt : DateTime → String)
    (today : Int) (msgs : List Msg) : List String :=
  msgs.filterMap (fun m =>
    match parseField parse m.timestamp with
    | some dt =>
        if dt.date = today
          then some (renderLine (fmt dt) m.user m.message) else none
    | none => none)

/-- The two context texts handed to the prompt (main.py lines 150, 161-178):
the full window rendering and the today-only rendering with its sentinel
fallback. -/
def build_prompt_texts (parse : String → Option DateTime)
    (fmt : DateTime → String) (now : DateTime) (history : History)
    (group_id : String) : String × String :=
  let msgs := window history group_id MAX_PROMPT_MESSAGES
  let lines := buildLines parse fmt now.date msgs
  (String.intercalate "\n" lines.1,
   if lines.2.isEmpty then TODAY_SENTINEL
   else String.intercalate "\n" lines.2)

/-! ## Concrete sample data, used to instantiate the general theorems -/

/-- A record with a parsable timestamp under `sampleParse`. -/
def mA : Msg := ⟨some "t", "a", "1"⟩

/-- A second such record. -/
def mB : Msg := ⟨some "t", "b", "2"⟩

/-- A third such record. -/
def mC : Msg := ⟨some "t", "c", "3"⟩

/-- A record whose timestamp does not parse under `sampleParse`. -/
def mGarbled : Msg := ⟨some "garbled", "u", "x"⟩

/-- A concrete stand-in for `datetime.fromisoformat`: only the literal
timestamp string of the sample records parses. -/
def sampleParse : String → Option DateTime :=
  fun s => if s = "t" then some ⟨100, 0⟩ else none

/-- A clock reading one day after the sample timestamp. -/
def sampleNow : DateTime := ⟨101, 0⟩

/-- A one-conversation store. -/
def sampleHist1 : History := [("g1", [mA])]

/-- A two-conversation store. -/
def sampleHistAB : History := [("a", [mA]), ("b", [mB])]

/-- A store whose single conversation holds three records. -/
def sampleHist3 : History := [("g", [mA, mB, mC])]

/-- A concrete stand-in for `datetime.isoformat`. -/
def sampleFmt : DateTime → String := fun dt => toString dt.date

/-- Three successive appends to conversation g1 at increasing times. -/
def appendedHist : History :=
  append_message sampleFmt
    (append_message sampleFmt
      (append_message sampleFmt [] "g1" "u" "m0" ⟨0, 0⟩)
      "g1" "u" "m1" ⟨0, 1⟩)
    "g1" "u" "m2" ⟨0, 2⟩

section StoreLemmas

theorem hGet_hSet_self (h : History) (k : String) (v : List Msg) :
    hGet (hSet h k v) k = v := by
  induction h with
  | nil => simp [hSet, hGet]
  | cons p t ih =>
      obtain ⟨k', v'⟩ := p
      by_cases hk : k' = k
      · simp [hSet, hGet, hk]
      · simp [hSet, hGet, hk, ih]

theorem hGet_hSet_ne (h : History) (k : String) (v : List Msg)
    (k' : String) (hne : k' ≠ k) : hGet (hSet h k v) k' = hGet h k' := by
  have hne' : k ≠ k' := Ne.symm hne
  induction h with
  | nil => simp [hSet, hGet, hne']
  | cons p t ih =>
      obtain ⟨k0, v0⟩ := p
      by_cases hk : k0 = k
      · subst hk
        simp [hSet, hGet, hne']
      · simp [hSet, hGet, hk, ih]

theorem hSet_hSet (h : History) (k : String) (v w : List Msg) :
    hSet (hSet h k v) k w = hSet h k w := by
  induction h with
  | nil => simp [hSet]
  | cons p t ih =>
      obtain ⟨k0, v0⟩ := p
      by_cases hk : k0 = k
      · simp [hSet, hk]
      · simp [hSet, hk, ih]

theorem mem_truncateLast {m : Msg} {maxR : Nat} {l : List Msg}
    (hm : m ∈ truncateLast maxR l) : m ∈ l := by
  unfold truncateLast pySliceFrom at hm
  split at hm
  · split at hm
    · exact List.mem_of_mem_drop hm
    · exact List.mem_of_mem_drop hm
  · exact hm

theorem truncateLast_zero (l : List Msg) : truncateLast 0 l = l := by
  unfold truncateLast pySliceFrom
  split
  · simp
  · rfl

theorem truncateLast_pos_eq_drop {maxR : Nat} (hpos : 0 < maxR)
    (l : List Msg) : truncateLast maxR l = l.drop (l.length - maxR) := by
  unfold truncateLast pySliceFrom
  split
  · rw [if_pos (by omega : -(maxR : Int) < 0)]
    congr 1
    omega
  · have h0 : l.length - maxR = 0 := by omega
    rw [h0, List.drop_zero]

theorem truncateLast_length_le {maxR : Nat} (hpos : 0 < maxR)
    (l : List Msg) : (truncateLast maxR l).length ≤ maxR := by
  rw [truncateLast_pos_eq_drop hpos, List.length_drop]
  omega

theorem truncateLast_sublist (maxR : Nat) (l : List Msg) :
    (truncateLast maxR l).Sublist l := by
  rcases Nat.eq_zero_or_pos maxR with h0 | hpos
  · subst h0
    rw [truncateLast_zero]
  · rw [truncateLast_pos_eq_drop hpos]
    exact List.drop_sublist _ _

theorem truncateLast_idem (maxR : Nat) (l : List Msg) :
    truncateLast maxR (truncateLast maxR l) = truncateLast maxR l := by
  rcases Nat.eq_zero_or_pos maxR with h0 | hpos
  · subst h0
    rw [truncateLast_zero, truncateLast_zero]
  · rw [truncateLast_pos_eq_drop hpos (truncateLast maxR l)]
    have h := truncateLast_length_le hpos l
    have h0 : (truncateLast maxR l).length - maxR = 0 := by omega
    rw [h0, List.drop_zero]

end StoreLemmas

theorem decodeMsg_encodeMsg (m : Msg) : decodeMsg (encodeMsg m) = some m := by
  cases m with
  | mk ts u t => cases ts <;> rfl

theorem decodeMsgs_map_encodeMsg (ms : List Msg) :
    decodeMsgs (ms.map encodeMsg) = some ms := by
  induction ms with
  | nil => rfl
  | cons m rest ih =>
      simp [decodeMsgs, decodeMsg_encodeMsg, ih]

theorem decodeEntries_encodeEntries (h : History) :
    decodeEntries (encodeEntries h) = some h := by
  induction h with
  | nil => rfl
  | cons kv rest ih =>
      obtain ⟨k, ms⟩ := kv
      have he : encodeEntries ((k, ms) :: rest) =
          (k, Json.arr (ms.map encodeMsg)) :: encodeEntries rest := rfl
      rw [he]
      simp [decodeEntries, decodeLog, decodeMsgs_map_encodeMsg, ih]

theorem buildLines_snd_eq_todaySubset (parse : String → Option DateTime)
    (fmt : DateTime → String) (today : Int) (msgs : List Msg) :
    (buildLines parse fmt today msgs).2 = todaySubset parse fmt today msgs := by
  induction msgs with
  | nil => rfl
  | cons m rest ih =>
      unfold buildLines todaySubset
      unfold todaySubset at ih
      rw [List.filterMap_cons]
      cases hp : parseField parse m.timestamp with
      | none => simp [hp, ih]
      | some dt =>
          by_cases hd : dt.date = today <;> simp [hp, hd, ih]

/-! ## Claim theorems -/

/-- C1: eviction is idempotent.  For every store state, conversation id and
fixed clock reading `now` (with the same retention window and record cap,
and the same timestamp parser), running `clean_old_history` twice yields
exactly the store state of running it once. -/
theorem clean_old_history_idempotent (parse : String → Option DateTime)
    (now : DateTime) (retentionDays : Int) (maxRecords : Nat)
    (history : History) (group_id : String) :
    clean_old_history parse now retentionDays maxRecords
      (clean_old_history parse now retentionDays maxRecords history group_id)
      group_id =
    clean_old_history parse now retentionDays maxRecords history group_id := by
  by_cases h0 : (hGet history group_id).isEmpty
  · have hch : clean_old_history parse now retentionDays maxRecords history
        group_id = history := by
      rw [clean_old_history, if_pos h0]
    rw [hch]
    exact hch
  · have hch : clean_old_history parse now retentionDays maxRecords history
        group_id =
      hSet history group_id
        (truncateLast maxRecords
          ((hGet history group_id).filter
            (keepMsg parse (subDays now retentionDays)))) := by
      rw [clean_old_history, if_neg h0]
    rw [hch]
    have hget : hGet (hSet history group_id
        (truncateLast maxRecords
          ((hGet history group_id).filter
            (keepMsg parse (subDays now retentionDays))))) group_id =
        truncateLast maxRecords
          ((hGet history group_id).filter
            (keepMsg parse (subDays now retentionDays))) :=
      hGet_hSet_self _ _ _
    by_cases ht : (truncateLast maxRecords
        ((hGet history group_id).filter
          (keepMsg parse (subDays now retentionDays)))).isEmpty
    · rw [clean_old_history, hget, if_pos ht]
    · have hall : ∀ m ∈ truncateLast maxRecords
          ((hGet history group_id).filter
            (keepMsg parse (subDays now retentionDays))),
          keepMsg parse (subDays now retentionDays) m = true := by
        intro m hm
        exact (List.mem_filter.mp (mem_truncateLast hm)).2
      have hfil : (truncateLast maxRecords
          ((hGet history group_id).filter
            (keepMsg parse (subDays now retentionDays)))).filter
            (keepMsg parse (subDays now retentionDays)) =
          truncateLast maxRecords
            ((hGet history group_id).filter
              (keepMsg parse (subDays now retentionDays))) :=
        List.filter_eq_self.mpr hall
      rw [clean_old_history, hget, if_neg ht, hfil, truncateLast_idem,
        hSet_hSet]

/-- C10: eviction frames its effect to one conversation: every other key's
log is unchanged, and the evicted log is an order-preserving subsequence
(sublist) of the prior log for that key. -/
theorem clean_old_history_frame (parse : String → Option DateTime)
    (now : DateTime) (retentionDays : Int) (maxRecords : Nat)
    (history : History) (group_id : String) :
    (∀ k, k ≠ group_id →
      hGet (clean_old_history parse now retentionDays maxRecords history
        group_id) k = hGet history k) ∧
    (hGet (clean_old_history parse now retentionDays maxRecords history
      group_id) group_id).Sublist (hGet history group_id) := by
  by_cases h0 : (hGet history group_id).isEmpty
  · rw [clean_old_history, if_pos h0]
    exact ⟨fun k _ => rfl, List.Sublist.refl _⟩
  · rw [clean_old_history, if_neg h0]
    constructor
    · intro k hk
      exact hGet_hSet_ne history group_id _ k hk
    · rw [hGet_hSet_self]
      exact (truncateLast_sublist _ _).trans (List.filter_sublist _)

/-- C10 witness: on a concrete two-conversation store, evicting
conversation a leaves conversation b's log unchanged. -/
theorem clean_old_history_frame_witness :
    hGet (clean_old_history sampleParse sampleNow 180 5000 sampleHistAB "a")
      "b" = hGet sampleHistAB "b" :=
  (clean_old_history_frame sampleParse sampleNow 180 5000 sampleHistAB
    "a").1 "b" (by decide)

/-- C2: the age pass retains every record whose timestamp is missing or
unparsable, regardless of `now` and of the retention window, and it removes
exactly the records whose parsed timestamp is strictly older than the
cutoff. -/
theorem age_filter_unparsable_retained (parse : String → Option DateTime)
    (now : DateTime) (retentionDays : Int) (msgs : List Msg) (m : Msg)
    (hm : m ∈ msgs) :
    (parseField parse m.timestamp = none →
      m ∈ msgs.filter (keepMsg parse (subDays now retentionDays))) ∧
    (m ∉ msgs.filter (keepMsg parse (subDays now retentionDays)) ↔
      ∃ dt, parseField parse m.timestamp = some dt ∧
        DateTime.le (subDays now retentionDays) dt = false) := by
  constructor
  · intro hnone
    refine List.mem_filter.mpr ⟨hm, ?_⟩
    unfold keepMsg
    rw [hnone]
  · constructor
    · intro hnot
      have hkeep : keepMsg parse (subDays now retentionDays) m = false := by
        cases hk : keepMsg parse (subDays now retentionDays) m
        · rfl
        · exact absurd (List.mem_filter.mpr ⟨hm, hk⟩) hnot
      unfold keepMsg at hkeep
      cases hp : parseField parse m.timestamp with
      | none =>
          rw [hp] at hkeep
          exact Bool.noConfusion hkeep
      | some dt =>
          rw [hp] at hkeep
          exact ⟨dt, rfl, hkeep⟩
    · rintro ⟨dt, hdt, hle⟩ hmem
      have hkeep := (List.mem_filter.mp hmem).2
      unfold keepMsg at hkeep
      rw [hdt] at hkeep
      have hkeep' : DateTime.le (subDays now retentionDays) dt = true := hkeep
      rw [hle] at hkeep'
      exact Bool.noConfusion hkeep'

/-- C2 witness: a concrete record with an unparsable timestamp survives a
concrete age pass. -/
theorem age_filter_unparsable_retained_witness :
    mGarbled ∈ ([mGarbled] : List Msg).filter
      (keepMsg sampleParse (subDays sampleNow 180)) :=
  (age_filter_unparsable_retained sampleParse sampleNow 180 [mGarbled]
    mGarbled (by decide)).1 (by decide)

/-- C3 counterexample: at a record cap of zero, a one-record all-recent log
does not evict to its newest zero records: Python's `filtered[-0:]` keeps
the whole list, so eviction returns the full (non-empty) log. -/
theorem truncation_zero_cap_counterexample :
    hGet (clean_old_history sampleParse sampleNow 1 0 sampleHist1 "g1")
      "g1" = [mA] ∧
    (hGet (clean_old_history sampleParse sampleNow 1 0 sampleHist1 "g1")
      "g1").isEmpty = false := by
  decide

/-- C3 amended: for every positive record cap, age-based filtering runs
before size-based truncation: a non-empty log evicts to the last
`maxRecords` of its age-surviving records, and in particular a log of
`maxRecords + 1` records all passing the age filter evicts to exactly its
newest `maxRecords` records.  (At a cap of zero the size pass keeps the
whole age-filtered log, Python's `filtered[-0:]`.) -/
theorem age_filter_before_truncation (parse : String → Option DateTime)
    (now : DateTime) (retentionDays : Int) (maxRecords : Nat)
    (history : History) (group_id : String) (hpos : 0 < maxRecords)
    (hne : hGet history group_id ≠ []) :
    (hGet (clean_old_history parse now retentionDays maxRecords history
        group_id) group_id =
      ((hGet history group_id).filter
        (keepMsg parse (subDays now retentionDays))).drop
        (((hGet history group_id).filter
          (keepMsg parse (subDays now retentionDays))).length - maxRecords)) ∧
    ((∀ m ∈ hGet history group_id,
        keepMsg parse (subDays now retentionDays) m = true) →
      (hGet history group_id).length = maxRecords + 1 →
      hGet (clean_old_history parse now retentionDays maxRecords history
        group_id) group_id = (hGet history group_id).drop 1) := by
  have h0 : ¬ (hGet history group_id).isEmpty = true := by
    simp [List.isEmpty_iff, hne]
  have hmain : hGet (clean_old_history parse now retentionDays maxRecords
      history group_id) group_id =
      truncateLast maxRecords
        ((hGet history group_id).filter
          (keepMsg parse (subDays now retentionDays))) := by
    rw [clean_old_history, if_neg h0, hGet_hSet_self]
  constructor
  · rw [hmain, truncateLast_pos_eq_drop hpos]
  · intro hall hlen
    have hf : (hGet history group_id).filter
        (keepMsg parse (subDays now retentionDays)) =
        hGet history group_id :=
      List.filter_eq_self.mpr hall
    rw [hmain, hf, truncateLast_pos_eq_drop hpos, hlen]
    have h1 : maxRecords + 1 - maxRecords = 1 := by omega
    rw [h1]

/-- C3 witness: a concrete three-record all-recent log with a cap of two
evicts to its last two records. -/
theorem age_filter_before_truncation_witness :
    hGet (clean_old_history sampleParse sampleNow 1 2 sampleHist3 "g") "g" =
      (hGet sampleHist3 "g").drop 1 :=
  (age_filter_before_truncation sampleParse sampleNow 1 2 sampleHist3 "g"
    (by decide) (by decide)).2 (by decide) (by decide)

/-- C4: for a positive limit, the window is exactly the last
min(limit, length) records of the conversation's log: a suffix of the log
(hence in original append order and without modification of the log) of
exactly that length. -/
theorem window_last_min (history : History) (group_id : String)
    (limit : Int) (hpos : 0 < limit) :
    window history group_id limit <:+ hGet history group_id ∧
    (window history group_id limit).length =
      min limit.toNat (hGet history group_id).length := by
  unfold window pySliceFrom
  rw [if_pos (by omega : -limit < 0), Int.neg_neg]
  refine ⟨List.drop_suffix _ _, ?_⟩
  rw [List.length_drop]
  omega

/-- C4 witness: after three appends to conversation g1, the window of the
two most recent records is a suffix of the log of length two. -/
theorem window_last_min_witness :
    window appendedHist "g1" 2 <:+ hGet appendedHist "g1" ∧
    (window appendedHist "g1" 2).length =
      min (Int.toNat 2) (hGet appendedHist "g1").length :=
  window_last_min appendedHist "g1" 2 (by decide)

/-- C5 counterexample: with Python slice semantics, a limit of zero returns
the whole log, not the empty sequence: on a one-record log the window at
limit 0 is that record. -/
theorem window_zero_limit_counterexample :
    window sampleHist1 "g1" 0 = [mA] ∧
    (window sampleHist1 "g1" 0).isEmpty = false := by
  decide

/-- C5 amended: for a non-positive limit the window is the log with its
first `(-limit)` records dropped; in particular limit 0 yields the whole
log. -/
theorem window_nonpositive_limit (history : History) (group_id : String)
    (limit : Int) (hle : limit ≤ 0) :
    window history group_id limit =
      (hGet history group_id).drop (-limit).toNat := by
  unfold window pySliceFrom
  rw [if_neg (by omega : ¬ -limit < 0)]

/-- C5 amended witness: limit -2 on a three-record log drops its first two
records. -/
theorem window_nonpositive_limit_witness :
    window sampleHist3 "g" (-2) =
      (hGet sampleHist3 "g").drop (-(-2 : Int)).toNat :=
  window_nonpositive_limit sampleHist3 "g" (-2) (by decide)

/-- C6: Load is total and never fails: whenever the history file is absent,
unreadable, undecodable, or decodes to something other than a dict,
`load_history` returns the empty store. -/
theorem load_history_total_fallback (fs : FileState)
    (hnot : ∀ fields, fs ≠ FileState.content (Json.obj fields)) :
    load_history fs = [] := by
  cases fs with
  | absent => rfl
  | unreadable => rfl
  | corrupt => rfl
  | content j =>
      cases j with
      | null => rfl
      | bool b => rfl
      | num n => rfl
      | str s => rfl
      | arr es => rfl
      | obj fields => exact absurd rfl (hnot fields)

/-- C6 witness: loading an undecodable file yields the empty store. -/
theorem load_history_total_fallback_witness :
    load_history FileState.corrupt = [] :=
  load_history_total_fallback FileState.corrupt (fun _ h => nomatch h)

/-- C7: Save is crash-atomic: if a crash happens after the temporary file
is written but before the `os.replace` step, the canonical file is
untouched, a subsequent Load sees exactly the prior content, and in
particular the prior saved state is still recovered. -/
theorem save_crash_preserves_prior_state (d : DiskState) (h : History) :
    (save_crash_after_tmp d h).canonical = d.canonical ∧
    load_history (save_crash_after_tmp d h).canonical =
      load_history d.canonical ∧
    (∀ s : History, d.canonical = FileState.content (encodeHistory s) →
      decodeEntries (load_history (save_crash_after_tmp d h).canonical) =
        some s) := by
  refine ⟨rfl, rfl, ?_⟩
  intro s hs
  have hc : (save_crash_after_tmp d h).canonical = d.canonical := rfl
  rw [hc, hs]
  exact decodeEntries_encodeEntries s

/-- C7 witness: a crash during a save of a bigger state, after the
temporary write, still lets Load recover the previously saved state. -/
theorem save_crash_preserves_prior_state_witness :
    decodeEntries (load_history (save_crash_after_tmp
      ⟨FileState.content (encodeHistory sampleHist1), none⟩
      sampleHist3).canonical) = some sampleHist1 :=
  (save_crash_preserves_prior_state
    ⟨FileState.content (encodeHistory sampleHist1), none⟩ sampleHist3).2.2
    sampleHist1 rfl

/-- C8: the Save-Load round trip is the identity: a completed save leaves
exactly the serialised store on the canonical path, Load returns it, and
the encoding determines the store state exactly. -/
theorem save_load_roundtrip (d : DiskState) (h : History) :
    load_history (save_history d h).canonical = encodeEntries h ∧
    decodeEntries (load_history (save_history d h).canonical) = some h := by
  have hload : load_history (save_history d h).canonical = encodeEntries h :=
    rfl
  refine ⟨hload, ?_⟩
  rw [hload]
  exact decodeEntries_encodeEntries h

set_option maxRecDepth 10000 in
/-- C9: the today-window text is exactly the records of the window whose
parsable timestamp falls on the local calendar date of `now`, rendered one
per line in order, and when that subset is empty the non-empty sentinel
string is produced instead. -/
theorem today_window_sentinel (parse : String → Option DateTime)
    (fmt : DateTime → String) (now : DateTime) (history : History)
    (group_id : String) :
    (build_prompt_texts parse fmt now history group_id).2 =
      (if todaySubset parse fmt now.date
            (window history group_id MAX_PROMPT_MESSAGES) = []
        then TODAY_SENTINEL
        else String.intercalate "\n"
          (todaySubset parse fmt now.date
            (window history group_id MAX_PROMPT_MESSAGES))) ∧
    0 < TODAY_SENTINEL.length := by
  refine ⟨?_, by decide⟩
  have hb : (build_prompt_texts parse fmt now history group_id).2 =
      (if (buildLines parse fmt now.date
            (window history group_id MAX_PROMPT_MESSAGES)).2.isEmpty
        then TODAY_SENTINEL
        else String.intercalate "\n"
          (buildLines parse fmt now.date
            (window history group_id MAX_PROMPT_MESSAGES)).2) := rfl
  rw [hb, buildLines_snd_eq_todaySubset]
  simp only [List.isEmpty_iff]
